import Mathlib

/-!
# Verification of the dungoxide dungeon generator

Shallow embedding of the dungeon-generation engine:
`src/dungeon.rs` (configuration, validation, builder),
`src/binary_partition_builder.rs` (BSP strategy) and
`src/room_placement_builder.rs` (room-placement strategy).

Modelling conventions:
* `usize` is modelled as `Nat`.  Rust's debug/test profile checks every
  subtraction, so subtraction is modelled by `csub`, which fails (`none`)
  exactly when the Rust expression would panic on underflow.  A `none`
  result of a build models a panic / abort of the Rust code.
* `rand::thread_rng` is modelled as an explicit stream of naturals
  (`RNG`).  `gen_range(lo..hi)` maps the next raw draw into the range and
  fails on an empty range (Rust panics there); `gen_bool(0.5)` reads the
  parity of the next raw draw.  Every draw the Rust code makes, and only
  those, consumes one element of the stream, in source order.
* Grids are `List (List TileType)`; `map[y][x] = t` is `gridSet`, which is
  a no-op out of bounds.  All writes performed by the generators are in
  bounds, so this coincides with the Rust behaviour on non-panicking runs.
-/

set_option maxRecDepth 4000

/-- `TileType` from `src/dungeon.rs` (`Door = 1, Wall = 4, Floor = 5`). -/
inductive TileType where
  | Door
  | Wall
  | Floor
deriving DecidableEq, Repr

/-- Stable numeric identity of the tiles (`#[repr(u32)]`). -/
def TileType.id : TileType → Nat
  | .Door => 1
  | .Wall => 4
  | .Floor => 5

/-- `DungeonBuildError` from `src/dungeon.rs`.  The spec renames
`NoBuildAlgorithmProvided` to `NoStrategySelected`. -/
inductive DungeonBuildError where
  | InvalidSize (msg : String)
  | InvalidRoomSize (msg : String)
  | RoomTooLargeForDungeon
  | NoRoomsCreated
  | NoBuildAlgorithmProvided
deriving DecidableEq, Repr

/-- Checked `usize` subtraction: Rust's debug profile panics on underflow. -/
def csub (a b : Nat) : Option Nat :=
  if b ≤ a then some (a - b) else none

/-- The random source: a stream of raw naturals and a cursor.  Models the
unseeded `rand::thread_rng()`; each Rust draw consumes one stream element. -/
structure RNG where
  stream : Nat → Nat
  idx : Nat

/-- Take the next raw natural from the stream. -/
def RNG.next (r : RNG) : Nat × RNG :=
  (r.stream r.idx, ⟨r.stream, r.idx + 1⟩)

/-- `rng.gen_bool(0.5)`: parity of the next raw draw. -/
def RNG.nextBool (r : RNG) : Bool × RNG :=
  let (n, r') := r.next
  (n % 2 == 0, r')

/-- `rng.gen_range(lo..hi)`: uniform in `[lo, hi)`; Rust panics when the
range is empty, modelled by `none`. -/
def RNG.genRange (r : RNG) (lo hi : Nat) : Option (Nat × RNG) :=
  if lo < hi then
    let (n, r') := r.next
    some (lo + n % (hi - lo), r')
  else none

/-- `rng.gen_range(lo..=hi)`: uniform in `[lo, hi]`; Rust panics when
`hi < lo`, modelled by `none`. -/
def RNG.genRangeIncl (r : RNG) (lo hi : Nat) : Option (Nat × RNG) :=
  if lo ≤ hi then
    let (n, r') := r.next
    some (lo + n % (hi + 1 - lo), r')
  else none

/-- The tile grid, indexed `[row][column]` (`Vec<Vec<TileType>>`). -/
abbrev Grid := List (List TileType)

/-- `vec![vec![TileType::Wall; width]; height]`. -/
def mkGrid (width height : Nat) : Grid :=
  List.replicate height (List.replicate width TileType.Wall)

/-- Read `map[y][x]`; all call sites of the generators read in bounds, the
`Wall` default is never observed on a non-panicking Rust run. -/
def gridGet (g : Grid) (y x : Nat) : TileType :=
  (List.getD g y []).getD x TileType.Wall

/-- Write `map[y][x] = t`; a no-op out of bounds (the generators only
write in bounds). -/
def gridSet (g : Grid) (y x : Nat) (t : TileType) : Grid :=
  List.set g y ((List.getD g y []).set x t)

/-- Number of `Door` cells of a grid. -/
def doorCount (g : Grid) : Nat :=
  (g.map (fun row => row.countP (fun t => t == TileType.Door))).sum

/-- `DungeonSize` from `src/dungeon.rs`. -/
structure DungeonSize where
  width : Nat
  height : Nat
deriving DecidableEq, Repr

/-- `RoomSize` from `src/dungeon.rs`. -/
structure RoomSize where
  min_room_size : Nat
  max_room_size : Nat
deriving DecidableEq, Repr

/-- `DungeonBuildConfig` from `src/dungeon.rs`. -/
structure DungeonBuildConfig where
  dungeon_size : DungeonSize
  room_size : RoomSize
  should_place_doors : Bool
deriving DecidableEq, Repr

/-- `DungeonSize::validate`. -/
def DungeonSize.validate (s : DungeonSize) : Except DungeonBuildError Unit :=
  if s.width = 0 ∨ s.height = 0 then
    .error (.InvalidSize "Width and height must be bigger or equals to 5")
  else .ok ()

/-- `DungeonSize::validate_room_size`. -/
def DungeonSize.validate_room_size (s : DungeonSize) (room_size : RoomSize) :
    Except DungeonBuildError Unit :=
  if room_size.min_room_size > s.width ∨ room_size.min_room_size > s.height then
    .error .RoomTooLargeForDungeon
  else .ok ()

/-- `RoomSize::validate`. -/
def RoomSize.validate (r : RoomSize) : Except DungeonBuildError Unit :=
  if r.min_room_size = 0 ∨ r.max_room_size = 0 then
    .error (.InvalidRoomSize "Room size must be greater than 0")
  else if r.min_room_size > r.max_room_size then
    .error (.InvalidRoomSize "Room maximum size must be greater or equal to minimum size")
  else .ok ()

/-- A build strategy: `DungeonBuilder::build`, consuming the validated
configuration and the random source.  `none` models a panic. -/
def BuildStrategy : Type :=
  DungeonBuildConfig → RNG → Option (Except DungeonBuildError Grid)

/-- `DungeonConfigBuilder::build` (src/dungeon.rs lines 119-128): unwrap the
algorithm (`NoBuildAlgorithmProvided` when absent), then the three `?`-chained
validations, then invoke the strategy.  The `?` operator's early return on
`Err` is modelled by the `match`es. -/
def configBuilderBuild (algo : Option BuildStrategy) (cfg : DungeonBuildConfig)
    (rng : RNG) : Option (Except DungeonBuildError Grid) :=
  match algo with
  | none => some (.error .NoBuildAlgorithmProvided)
  | some f =>
    match cfg.dungeon_size.validate with
    | .error e => some (.error e)
    | .ok _ =>
      match cfg.room_size.validate with
      | .error e => some (.error e)
      | .ok _ =>
        match cfg.dungeon_size.validate_room_size cfg.room_size with
        | .error e => some (.error e)
        | .ok _ => f cfg rng

/-- The validation sequence exactly as the spec words it (section 4.1):
strategy-presence first, then size, then room-size, then room-vs-dungeon,
with the strategy invoked only after all checks pass.  Stated from the
spec to be compared with `configBuilderBuild`, which is stated from the
source. -/
def specOrderedBuild (algo : Option BuildStrategy) (cfg : DungeonBuildConfig)
    (rng : RNG) : Option (Except DungeonBuildError Grid) :=
  match algo with
  | none => some (.error .NoBuildAlgorithmProvided)
  | some f =>
    if cfg.dungeon_size.width = 0 ∨ cfg.dungeon_size.height = 0 then
      some (.error (.InvalidSize "Width and height must be bigger or equals to 5"))
    else if cfg.room_size.min_room_size = 0 ∨ cfg.room_size.max_room_size = 0 then
      some (.error (.InvalidRoomSize "Room size must be greater than 0"))
    else if cfg.room_size.min_room_size > cfg.room_size.max_room_size then
      some (.error (.InvalidRoomSize "Room maximum size must be greater or equal to minimum size"))
    else if cfg.room_size.min_room_size > cfg.dungeon_size.width ∨
        cfg.room_size.min_room_size > cfg.dungeon_size.height then
      some (.error .RoomTooLargeForDungeon)
    else f cfg rng

/-! ## Shared grid-carving helpers -/

/-- Carve a horizontal segment unconditionally:
`for x in min(x1,x2)..=max(x1,x2) { map[y][x] = Floor }`. -/
def setRowFloor (g : Grid) (y x1 x2 : Nat) : Grid :=
  (List.range' (min x1 x2) (max x1 x2 + 1 - min x1 x2)).foldl
    (fun g x => gridSet g y x TileType.Floor) g

/-- Carve a vertical segment unconditionally:
`for y in min(y1,y2)..=max(y1,y2) { map[y][x] = Floor }`. -/
def setColFloor (g : Grid) (x y1 y2 : Nat) : Grid :=
  (List.range' (min y1 y2) (max y1 y2 + 1 - min y1 y2)).foldl
    (fun g y => gridSet g y x TileType.Floor) g

/-- Carve a horizontal segment converting only `Wall` cells
(`if map[y1][x] == TileType::Wall { map[y1][x] = TileType::Floor }`). -/
def setRowFloorIfWall (g : Grid) (y x1 x2 : Nat) : Grid :=
  (List.range' (min x1 x2) (max x1 x2 + 1 - min x1 x2)).foldl
    (fun g x => if gridGet g y x = TileType.Wall then gridSet g y x TileType.Floor else g) g

/-- Carve a vertical segment converting only `Wall` cells. -/
def setColFloorIfWall (g : Grid) (x y1 y2 : Nat) : Grid :=
  (List.range' (min y1 y2) (max y1 y2 + 1 - min y1 y2)).foldl
    (fun g y => if gridGet g y x = TileType.Wall then gridSet g y x TileType.Floor else g) g

/-- The four orthogonal neighbours' `Floor` count used by `place_doors`. -/
def adjacentFloorCount (g : Grid) (y x : Nat) : Nat :=
  ([gridGet g (y - 1) x, gridGet g (y + 1) x,
    gridGet g y (x - 1), gridGet g y (x + 1)]).countP (fun t => t == TileType.Floor)

/-- The door rule applied at one cell: if `map[y][x]` is `Wall` and at least
two of its four orthogonal neighbours are `Floor`, it becomes `Door`. -/
def placeDoorAt (g : Grid) (y x : Nat) : Grid :=
  if gridGet g y x = TileType.Wall then
    if 2 ≤ adjacentFloorCount g y x then gridSet g y x TileType.Door
    else g
  else g

/-- `place_doors` (identical in both builder files): scan the interior cells
row-major and apply the door rule sequentially, exactly as the Rust loops
mutate `map` in place.  `map[0].len()` is the width; the generators call
this only on non-empty grids. -/
def placeDoors (g : Grid) : Grid :=
  let height := g.length
  let width := (List.getD g 0 []).length
  ((List.range' 1 (height - 1 - 1)).flatMap
    (fun y => (List.range' 1 (width - 1 - 1)).map (fun x => (y, x)))).foldl
    (fun g yx => placeDoorAt g yx.1 yx.2) g

/-- `for _ in 0..n` over a panic-capable loop body. -/
def iterateN {σ : Type} (f : σ → Option σ) : Nat → σ → Option σ
  | 0, s => some s
  | n + 1, s => (f s).bind (iterateN f n)

/-! ## Room-placement strategy (`src/room_placement_builder.rs`) -/

namespace RoomPlacement

/-- `Room` from `src/room_placement_builder.rs` lines 102-110. -/
structure Room where
  x : Nat
  y : Nat
  width : Nat
  height : Nat
  center_x : Nat
  center_y : Nat
deriving DecidableEq, Repr

/-- `Room::new`. -/
def Room.new (x y width height : Nat) : Room :=
  { x := x, y := y, width := width, height := height,
    center_x := x + width / 2, center_y := y + height / 2 }

/-- A placeholder for the (unreachable) out-of-range `rooms[i]` access. -/
def dummyRoom : Room := Room.new 0 0 0 0

/-- `Room::intersects` (lines 126-131): the strict/half-open rectangle
overlap test. -/
def Room.intersects (self other : Room) : Bool :=
  decide (self.x < other.x + other.width) &&
  decide (self.x + self.width > other.x) &&
  decide (self.y < other.y + other.height) &&
  decide (self.y + self.height > other.y)

/-- One iteration of the placement loop (lines 23-44).  The state is
`(map, rooms, rng)`; `none` models a panic (the checked subtractions
`width - 2` / `height - 2` underflow when the dimension is < 2, and the
Rust `||` is short-circuit, so `height - 2` is evaluated only when the
first comparison is false). -/
def placeStep (width height minS maxS : Nat) (st : Grid × List Room × RNG) :
    Option (Grid × List Room × RNG) :=
  match st with
  | (map, rooms, rng) =>
  match rng.genRangeIncl minS maxS with
  | none => none
  | some (w, rng) =>
  match rng.genRangeIncl minS maxS with
  | none => none
  | some (h, rng) =>
  match csub width 2 with
  | none => none
  | some wm2 =>
  if w ≥ wm2 then some (map, rooms, rng)
  else
  match csub height 2 with
  | none => none
  | some hm2 =>
  if h ≥ hm2 then some (map, rooms, rng)
  else
  match (csub width w).bind (fun a => csub a 1) with
  | none => none
  | some xHi =>
  match rng.genRange 1 xHi with
  | none => none
  | some (x, rng) =>
  match (csub height h).bind (fun a => csub a 1) with
  | none => none
  | some yHi =>
  match rng.genRange 1 yHi with
  | none => none
  | some (y, rng) =>
  let next := Room.new x y w h
  if rooms.all (fun r => !(next.intersects r)) then
    some ((List.range' next.x next.width).foldl
      (fun map i => (List.range' next.y next.height).foldl
        (fun map j => gridSet map j i TileType.Floor) map) map,
      rooms ++ [next], rng)
  else some (map, rooms, rng)

/-- The whole placement loop: `(width * height) / (min * max)` attempts.
Division by zero panics in Rust (modelled by `none`); it is unreachable
after validation. -/
def placeRooms (width height minS maxS : Nat) (g : Grid) (rng : RNG) :
    Option (Grid × List Room × RNG) :=
  if minS * maxS = 0 then none
  else iterateN (placeStep width height minS maxS)
    ((width * height) / (minS * maxS)) (g, [], rng)

/-- Squared Euclidean center distance (lines 54-57).  The code computes
`sqrt(dx^2 + dy^2)` as `f64` and sorts by it; `sqrt` is strictly monotone,
so sorting by the squared distance yields the same order (including ties). -/
def sqDist (a b : Room) : Nat :=
  (max a.center_x b.center_x - min a.center_x b.center_x) ^ 2 +
  (max a.center_y b.center_y - min a.center_y b.center_y) ^ 2

/-- The complete edge list over room indices `i < j`, in enumeration order
(lines 50-60). -/
def mkEdges (rooms : List Room) : List ((Nat × Nat) × Nat) :=
  (List.range rooms.length).flatMap (fun i =>
    (List.range' (i + 1) (rooms.length - (i + 1))).map (fun j =>
      ((i, j), sqDist (rooms.getD i dummyRoom) (rooms.getD j dummyRoom))))

/-- Stable insertion into a weight-sorted edge list: `e` goes before the
first element of weight `≥` its own. -/
def insertEdge (e : (Nat × Nat) × Nat) :
    List ((Nat × Nat) × Nat) → List ((Nat × Nat) × Nat)
  | [] => [e]
  | a :: l => if a.2 < e.2 then a :: insertEdge e l else e :: a :: l

/-- `edges.sort_by(partial_cmp)` — a stable sort by weight.  Rust's
`sort_by` is stable and the weights are totally ordered here, so the
result is the unique stable weight-sort, which insertion sort computes. -/
def sortEdges (edges : List ((Nat × Nat) × Nat)) : List ((Nat × Nat) × Nat) :=
  edges.foldr insertEdge []

/-- Union-find state (lines 135-181). -/
structure UnionFind where
  parent : List Nat
  rank : List Nat
  size : Nat
deriving Repr

/-- `UnionFind::new`. -/
def UnionFind.new (size : Nat) : UnionFind :=
  { parent := List.range size, rank := List.replicate size 0, size := size }

/-- `UnionFind::find`, written with fuel (the parent list's length bounds
the chain).  Path compression is omitted: it re-parents nodes inside a
class but never changes the root a find returns, so the union sequence and
all observable results are unchanged. -/
def UnionFind.findAux (parent : List Nat) : Nat → Nat → Nat
  | 0, x => x
  | fuel + 1, x =>
    let px := parent.getD x x
    if px = x then x else UnionFind.findAux parent fuel px

/-- Root of `x`. -/
def UnionFind.find (uf : UnionFind) (x : Nat) : Nat :=
  UnionFind.findAux uf.parent uf.parent.length x

/-- `UnionFind::union` with union by rank. -/
def UnionFind.union (uf : UnionFind) (x y : Nat) : UnionFind :=
  let xroot := uf.find x
  let yroot := uf.find y
  if xroot = yroot then uf
  else
    let uf' :=
      match compare (uf.rank.getD xroot 0) (uf.rank.getD yroot 0) with
      | .lt => { uf with parent := uf.parent.set xroot yroot }
      | .gt => { uf with parent := uf.parent.set yroot xroot }
      | .eq => { uf with parent := uf.parent.set yroot xroot,
                         rank := uf.rank.set xroot (uf.rank.getD xroot 0 + 1) }
    { uf' with size := uf'.size - 1 }

/-- `create_corridor` (lines 183-204): an L-shaped corridor between the two
room centers, carving every cell on the path to `Floor` unconditionally. -/
def createCorridor (g : Grid) (room1 room2 : Room) (rng : RNG) : Grid × RNG :=
  let x1 := room1.center_x
  let y1 := room1.center_y
  let x2 := room2.center_x
  let y2 := room2.center_y
  let (coin, rng) := rng.nextBool
  if coin then
    (setColFloor (setRowFloor g y1 x1 x2) x2 y1 y2, rng)
  else
    (setRowFloor (setColFloor g x1 y1 y2) y2 x1 x2, rng)

/-- Kruskal's loop (lines 68-79): walk the sorted edges; for an edge whose
endpoints have different roots, union them, carve the corridor, record the
edge, and stop as soon as one component remains. -/
def kruskalLoop (rooms : List Room) :
    List ((Nat × Nat) × Nat) → UnionFind → List (Nat × Nat) → Grid → RNG →
    UnionFind × List (Nat × Nat) × Grid × RNG
  | [], uf, corridors, g, rng => (uf, corridors, g, rng)
  | (e :: rest), uf, corridors, g, rng =>
    let i := e.1.1
    let j := e.1.2
    if uf.find i ≠ uf.find j then
      let uf := uf.union i j
      let (g, rng) := createCorridor g (rooms.getD i dummyRoom) (rooms.getD j dummyRoom) rng
      let corridors := corridors ++ [(i, j)]
      if uf.size = 1 then (uf, corridors, g, rng)
      else kruskalLoop rooms rest uf corridors g rng
    else kruskalLoop rooms rest uf corridors g rng

/-- The extra-corridor loop (lines 81-91): walk the sorted edges; carve
every edge not already recorded as a corridor, incrementing `added`, and
break once `added >= extra`.  The carve happens before the check, so the
first qualifying edge is carved even when `extra = 0`.  Returns the carved
extra edges as well. -/
def extraLoop (rooms : List Room) (corridors : List (Nat × Nat)) (extra : Nat) :
    List ((Nat × Nat) × Nat) → Nat → Grid → RNG → Grid × RNG × List (Nat × Nat)
  | [], _, g, rng => (g, rng, [])
  | (e :: rest), added, g, rng =>
    let i := e.1.1
    let j := e.1.2
    if corridors.contains (i, j) || corridors.contains (j, i) then
      extraLoop rooms corridors extra rest added g rng
    else
      let (g, rng) := createCorridor g (rooms.getD i dummyRoom) (rooms.getD j dummyRoom) rng
      if added + 1 ≥ extra then (g, rng, [(i, j)])
      else
        let (g', rng', carved) := extraLoop rooms corridors extra rest (added + 1) g rng
        (g', rng', (i, j) :: carved)

/-- `RoomPlacementBuilder::build` (lines 11-99). -/
def build (cfg : DungeonBuildConfig) (rng : RNG) :
    Option (Except DungeonBuildError Grid) :=
  let width := cfg.dungeon_size.width
  let height := cfg.dungeon_size.height
  let minS := cfg.room_size.min_room_size
  let maxS := cfg.room_size.max_room_size
  match placeRooms width height minS maxS (mkGrid width height) rng with
  | none => none
  | some (map, rooms, rng) =>
  if rooms.isEmpty then some (.error .NoRoomsCreated)
  else
  let edges := sortEdges (mkEdges rooms)
  let uf := UnionFind.new rooms.length
  match kruskalLoop rooms edges uf [] map rng with
  | (_, corridors, map, rng) =>
  match rng.genRange 0 2 with
  | none => none
  | some (extra, rng) =>
  match extraLoop rooms corridors extra edges 0 map rng with
  | (map, _, _) =>
  some (.ok (if cfg.should_place_doors then placeDoors map else map))

end RoomPlacement

/-! ## Binary-space-partition strategy (`src/binary_partition_builder.rs`) -/

namespace BinaryPartition

/-- `Room` from `src/binary_partition_builder.rs` lines 52-58; used both as
a partition rectangle and as a carved room. -/
structure Room where
  x : Nat
  y : Nat
  width : Nat
  height : Nat
deriving DecidableEq, Repr

/-- `Room::center`. -/
def Room.center (r : Room) : Nat × Nat :=
  (r.x + r.width / 2, r.y + r.height / 2)

/-- `RoomsPartition` (lines 69-74).  The Rust struct holds `Option`al child
boxes, but `split` always sets both or neither, so every reachable value is
either a leaf (both children `None`) or a node with both children present;
the embedding has one constructor per reachable shape.  Both carry the
`room` field (`None` until `create_rooms` fills a leaf). -/
inductive RoomsPartition where
  | leaf (root_room : Room) (room : Option Room)
  | node (root_room : Room) (room : Option Room)
      (left : RoomsPartition) (right : RoomsPartition)
deriving Repr

/-- The branch of `split` choosing the orientation (lines 93-99).  Note the
first two conditions are `width >= height` / `height >= width`: one of them
always holds, so the `rng.gen_bool(0.5)` branch is unreachable (it is kept
here verbatim). -/
def splitDir (width height : Nat) (rng : RNG) : Bool × RNG :=
  if width ≥ height then (false, rng)
  else if height ≥ width then (true, rng)
  else rng.nextBool

/-- `RoomsPartition::split` (lines 86-150) on a fresh (childless) node, the
only way `partition_tree` calls it, so the `left.is_some() || right.is_some()`
early return never fires.  Outer `none` models a panic (the checked
subtraction `dimension - min_size`); the inner `Option` is the `bool`
result: `none` = split failed (node stays a leaf), `some` = the two child
rectangles. -/
def splitNode (rect : Room) (minS : Nat) (rng : RNG) :
    Option (Option (Room × Room) × RNG) :=
  match splitDir rect.width rect.height rng with
  | (horiz, rng) =>
  match (if horiz then csub rect.height minS else csub rect.width minS) with
  | none => none
  | some maxSize =>
  if maxSize ≤ minS then some (none, rng)
  else
  match rng.genRange minS maxSize with
  | none => none
  | some (split, rng) =>
  if horiz then
    some (some ({ x := rect.x, y := rect.y, width := rect.width, height := split },
                { x := rect.x, y := rect.y + split, width := rect.width,
                  height := rect.height - split }), rng)
  else
    some (some ({ x := rect.x, y := rect.y, width := split, height := rect.height },
                { x := rect.x + split, y := rect.y, width := rect.width - split,
                  height := rect.height }), rng)

/-- The `can_split` draw of `partition_tree` (lines 153-155): `||` is
short-circuit, so the coin is tossed only when both dimensions are
`≤ max_size`. -/
def canSplitDraw (rect : Room) (maxS : Nat) (rng : RNG) : Bool × RNG :=
  if rect.width > maxS ∨ rect.height > maxS then (true, rng)
  else rng.nextBool

/-- `RoomsPartition::partition_tree` (lines 152-169), with explicit fuel in
place of Rust's unbounded recursion.  For every validated configuration
(`1 ≤ min_room_size`) fuel `width + height` is exact: each successful split
strictly shrinks the split axis (proved below), so the fuel-exhausted
branch is never taken.  (For `min_room_size = 0` the Rust recursion itself
need not terminate.) -/
def partitionTree : Nat → Room → Nat → Nat → RNG → Option (RoomsPartition × RNG)
  | 0, rect, _, _, rng => some (.leaf rect none, rng)
  | fuel + 1, rect, minS, maxS, rng =>
    match canSplitDraw rect maxS rng with
    | (canSplit, rng) =>
    if !canSplit then some (.leaf rect none, rng)
    else
    match splitNode rect minS rng with
    | none => none
    | some (none, rng) => some (.leaf rect none, rng)
    | some (some (lr, rr), rng) =>
    match partitionTree fuel lr minS maxS rng with
    | none => none
    | some (lt, rng) =>
    match partitionTree fuel rr minS maxS rng with
    | none => none
    | some (rt, rng) => some (.node rect none lt rt, rng)

/-- The leaf branch of `create_rooms` (lines 174-208): draw the room
dimensions and position, or skip the leaf (`none` room) when the feasible
range is empty.  Outer `none` models a panic of the checked subtractions
(unreachable from `build`).  The `room_w > x + width || room_h > y + height`
guard of the source is kept verbatim. -/
def createRoomForLeaf (rect : Room) (minS maxS : Nat) (rng : RNG) :
    Option (Option Room × RNG) :=
  match csub rect.width 1 with
  | none => none
  | some wSub =>
  match csub rect.height 1 with
  | none => none
  | some hSub =>
  let wMin := minS
  let hMin := minS
  let wMax := min wSub maxS
  let hMax := min hSub maxS
  if wMin > wMax ∨ hMin > hMax then some (none, rng)
  else
  match rng.genRangeIncl wMin wMax with
  | none => none
  | some (roomW, rng) =>
  match rng.genRangeIncl hMin hMax with
  | none => none
  | some (roomH, rng) =>
  if roomW > rect.x + rect.width ∨ roomH > rect.y + rect.height then some (none, rng)
  else
  match csub (rect.x + rect.width) roomW with
  | none => none
  | some xHi =>
  match rng.genRangeIncl rect.x xHi with
  | none => none
  | some (roomX, rng) =>
  match csub (rect.y + rect.height) roomH with
  | none => none
  | some yHi =>
  match rng.genRangeIncl rect.y yHi with
  | none => none
  | some (roomY, rng) =>
  some (some { x := roomX, y := roomY, width := roomW, height := roomH }, rng)

/-- `RoomsPartition::create_rooms` (lines 171-218): fill every leaf's
`room` field (when feasible) and append created rooms, left subtree before
right subtree. -/
def createRooms : RoomsPartition → Nat → Nat → List Room → RNG →
    Option (RoomsPartition × List Room × RNG)
  | .leaf rect _, minS, maxS, rooms, rng =>
    match createRoomForLeaf rect minS maxS rng with
    | none => none
    | some (none, rng) => some (.leaf rect none, rooms, rng)
    | some (some room, rng) => some (.leaf rect (some room), rooms ++ [room], rng)
  | .node rect r l right, minS, maxS, rooms, rng =>
    match createRooms l minS maxS rooms rng with
    | none => none
    | some (l', rooms, rng) =>
    match createRooms right minS maxS rooms rng with
    | none => none
    | some (r', rooms, rng) => some (.node rect r l' r', rooms, rng)

/-- `RoomsPartition::get_room_center` (lines 239-248): this node's room's
center, else the first center found in the left subtree, else the right. -/
def getRoomCenter : RoomsPartition → Option (Nat × Nat)
  | .leaf _ room => room.map Room.center
  | .node _ room l r =>
    ((room.map Room.center).orElse (fun _ => getRoomCenter l)).orElse
      (fun _ => getRoomCenter r)

/-- `apply_corridors` (lines 251-283): an L-shaped corridor between two
centers, converting only `Wall` cells to `Floor`. -/
def applyCorridors (g : Grid) (x1 y1 x2 y2 : Nat) (rng : RNG) : Grid × RNG :=
  let (coin, rng) := rng.nextBool
  if coin then
    (setColFloorIfWall (setRowFloorIfWall g y1 x1 x2) x2 y1 y2, rng)
  else
    (setRowFloorIfWall (setColFloorIfWall g x1 y1 y2) y2 x1 x2, rng)

/-- `RoomsPartition::connect_rooms` (lines 220-237): bottom-up, connect the
first room centers of the two subtrees of every internal node. -/
def connectRooms : RoomsPartition → Grid → RNG → Grid × RNG
  | .leaf _ _, g, rng => (g, rng)
  | .node _ _ l r, g, rng =>
    let (g, rng) := connectRooms l g rng
    let (g, rng) := connectRooms r g rng
    match getRoomCenter l, getRoomCenter r with
    | some (lx, ly), some (rx, ry) => applyCorridors g lx ly rx ry rng
    | _, _ => (g, rng)

/-- The room-carving loop of `build` (lines 34-40): rows outer, columns
inner, unconditional `Floor`. -/
def carveRooms (g : Grid) (rooms : List Room) : Grid :=
  rooms.foldl (fun g room =>
    (List.range' room.y room.height).foldl (fun g y =>
      (List.range' room.x room.width).foldl (fun g x =>
        gridSet g y x TileType.Floor) g) g) g

/-- `BinaryPartitionBuilder::build` (lines 11-49). -/
def build (cfg : DungeonBuildConfig) (rng : RNG) :
    Option (Except DungeonBuildError Grid) :=
  let width := cfg.dungeon_size.width
  let height := cfg.dungeon_size.height
  let minS := cfg.room_size.min_room_size
  let maxS := cfg.room_size.max_room_size
  let root : Room := { x := 0, y := 0, width := width, height := height }
  match partitionTree (width + height) root minS maxS rng with
  | none => none
  | some (tree, rng) =>
  match createRooms tree minS maxS [] rng with
  | none => none
  | some (tree, rooms, rng) =>
  if rooms.isEmpty then some (.error .NoRoomsCreated)
  else
  match connectRooms tree (carveRooms (mkGrid width height) rooms) rng with
  | (map, _) =>
  some (.ok (if cfg.should_place_doors then placeDoors map else map))

end BinaryPartition

/-! ## Basic lemmas about the grid primitives -/

/-- The list of row lengths; the shape of a grid. -/
def rowLens (g : Grid) : List Nat := g.map List.length

/-- A grid without any `Door` cell. -/
def NoDoor (g : Grid) : Prop :=
  ∀ row ∈ g, ∀ t ∈ row, t ≠ TileType.Door

theorem rowLens_gridSet (g : Grid) (y x : Nat) (t : TileType) :
    rowLens (gridSet g y x t) = rowLens g := by
  induction g generalizing y with
  | nil => simp [gridSet, rowLens]
  | cons row rest ih =>
    cases y with
    | zero => simp [gridSet, rowLens, List.getD_cons_zero]
    | succ n =>
      have := ih n
      simp only [gridSet, rowLens, List.getD_cons_succ, List.set_cons_succ,
        List.map_cons, List.cons.injEq, true_and] at this ⊢
      exact this

theorem noDoor_gridSet {g : Grid} {y x : Nat} {t : TileType}
    (ht : t ≠ TileType.Door) (h : NoDoor g) : NoDoor (gridSet g y x t) := by
  intro row hrow t' ht'
  rcases List.mem_or_eq_of_mem_set hrow with hmem | rfl
  · exact h row hmem t' ht'
  · rcases List.mem_or_eq_of_mem_set ht' with hmem | rfl
    · by_cases hy : y < g.length
      · exact h _ (by rw [List.getD_eq_getElem _ _ hy] ; exact List.getElem_mem hy) t' hmem
      · rw [List.getD_eq_default _ _ (Nat.le_of_not_lt hy)] at hmem
        simp at hmem
    · exact ht

theorem rowLens_foldl {ι : Type} (f : Grid → ι → Grid)
    (hf : ∀ g a, rowLens (f g a) = rowLens g) (l : List ι) (g : Grid) :
    rowLens (l.foldl f g) = rowLens g := by
  induction l generalizing g with
  | nil => rfl
  | cons a l ih => simpa [List.foldl_cons, hf] using ih (f g a)

theorem noDoor_foldl {ι : Type} (f : Grid → ι → Grid)
    (hf : ∀ g a, NoDoor g → NoDoor (f g a)) (l : List ι) (g : Grid)
    (hg : NoDoor g) : NoDoor (l.foldl f g) := by
  induction l generalizing g with
  | nil => exact hg
  | cons a l ih => exact ih (f g a) (hf g a hg)

theorem rowLens_setRowFloor (g : Grid) (y x1 x2 : Nat) :
    rowLens (setRowFloor g y x1 x2) = rowLens g :=
  rowLens_foldl _ (fun g x => rowLens_gridSet g y x _) _ g

theorem rowLens_setColFloor (g : Grid) (x y1 y2 : Nat) :
    rowLens (setColFloor g x y1 y2) = rowLens g :=
  rowLens_foldl _ (fun g y => rowLens_gridSet g y x _) _ g

theorem rowLens_setRowFloorIfWall (g : Grid) (y x1 x2 : Nat) :
    rowLens (setRowFloorIfWall g y x1 x2) = rowLens g :=
  rowLens_foldl _ (fun g x => by
    split <;> simp [rowLens_gridSet]) _ g

theorem rowLens_setColFloorIfWall (g : Grid) (x y1 y2 : Nat) :
    rowLens (setColFloorIfWall g x y1 y2) = rowLens g :=
  rowLens_foldl _ (fun g y => by
    split <;> simp [rowLens_gridSet]) _ g

theorem noDoor_setRowFloor {g : Grid} (y x1 x2 : Nat) (h : NoDoor g) :
    NoDoor (setRowFloor g y x1 x2) :=
  noDoor_foldl _ (fun g x => noDoor_gridSet (by simp)) _ g h

theorem noDoor_setColFloor {g : Grid} (x y1 y2 : Nat) (h : NoDoor g) :
    NoDoor (setColFloor g x y1 y2) :=
  noDoor_foldl _ (fun g y => noDoor_gridSet (by simp)) _ g h

theorem noDoor_setRowFloorIfWall {g : Grid} (y x1 x2 : Nat) (h : NoDoor g) :
    NoDoor (setRowFloorIfWall g y x1 x2) :=
  noDoor_foldl _ (fun g x hg => by
    split
    · exact noDoor_gridSet (by simp) hg
    · exact hg) _ g h

theorem noDoor_setColFloorIfWall {g : Grid} (x y1 y2 : Nat) (h : NoDoor g) :
    NoDoor (setColFloorIfWall g x y1 y2) :=
  noDoor_foldl _ (fun g y hg => by
    split
    · exact noDoor_gridSet (by simp) hg
    · exact hg) _ g h

theorem rowLens_placeDoorAt (g : Grid) (y x : Nat) :
    rowLens (placeDoorAt g y x) = rowLens g := by
  unfold placeDoorAt
  split <;> [skip; rfl]
  split <;> [exact rowLens_gridSet g y x _; rfl]

theorem rowLens_placeDoors (g : Grid) : rowLens (placeDoors g) = rowLens g := by
  unfold placeDoors
  exact rowLens_foldl _ (fun g (yx : Nat × Nat) => rowLens_placeDoorAt g yx.1 yx.2) _ g

theorem rowLens_mkGrid (w h : Nat) :
    rowLens (mkGrid w h) = List.replicate h w := by
  simp [rowLens, mkGrid, List.map_replicate]

theorem noDoor_mkGrid (w h : Nat) : NoDoor (mkGrid w h) := by
  intro row hrow t ht
  rw [List.eq_of_mem_replicate hrow] at ht
  rw [List.eq_of_mem_replicate ht]
  simp

theorem genRange_bounds {r r' : RNG} {lo hi v : Nat}
    (h : r.genRange lo hi = some (v, r')) : lo ≤ v ∧ v < hi := by
  unfold RNG.genRange at h
  split at h
  · simp only [RNG.next, Option.some.injEq, Prod.mk.injEq] at h
    obtain ⟨rfl, -⟩ := h
    have : r.stream r.idx % (hi - lo) < hi - lo :=
      Nat.mod_lt _ (by omega)
    omega
  · exact absurd h (by simp)

theorem genRangeIncl_bounds {r r' : RNG} {lo hi v : Nat}
    (h : r.genRangeIncl lo hi = some (v, r')) : lo ≤ v ∧ v ≤ hi := by
  unfold RNG.genRangeIncl at h
  split at h
  · simp only [RNG.next, Option.some.injEq, Prod.mk.injEq] at h
    obtain ⟨rfl, -⟩ := h
    have : r.stream r.idx % (hi + 1 - lo) < hi + 1 - lo :=
      Nat.mod_lt _ (by omega)
    omega
  · exact absurd h (by simp)

theorem csub_eq_some {a b c : Nat} (h : csub a b = some c) : b ≤ a ∧ c = a - b := by
  unfold csub at h
  split at h
  · simpa using ⟨by assumption, (Option.some.injEq _ _).mp h.symm⟩
  · exact absurd h (by simp)

/-! ## Preservation lemmas for the room-placement pipeline -/

namespace RoomPlacement

theorem intersects_comm (a b : Room) : a.intersects b = b.intersects a := by
  rw [Bool.eq_iff_iff]
  simp only [Room.intersects, Bool.and_eq_true, decide_eq_true_eq]
  omega

theorem rowLens_createCorridor (g : Grid) (r1 r2 : Room) (rng : RNG) :
    rowLens (createCorridor g r1 r2 rng).1 = rowLens g := by
  rcases hcr : rng.nextBool with ⟨coin, rng2⟩
  simp only [createCorridor, hcr]
  split <;> simp [rowLens_setRowFloor, rowLens_setColFloor]

theorem noDoor_createCorridor (g : Grid) (r1 r2 : Room) (rng : RNG)
    (h : NoDoor g) : NoDoor (createCorridor g r1 r2 rng).1 := by
  rcases hcr : rng.nextBool with ⟨coin, rng2⟩
  simp only [createCorridor, hcr]
  split
  · exact noDoor_setColFloor _ _ _ (noDoor_setRowFloor _ _ _ h)
  · exact noDoor_setRowFloor _ _ _ (noDoor_setColFloor _ _ _ h)

theorem rowLens_kruskalLoop (rooms : List Room) (edges : List ((Nat × Nat) × Nat))
    (uf : UnionFind) (corridors : List (Nat × Nat)) (g : Grid) (rng : RNG) :
    rowLens (kruskalLoop rooms edges uf corridors g rng).2.2.1 = rowLens g := by
  induction edges generalizing uf corridors g rng with
  | nil => rfl
  | cons e rest ih =>
    simp only [kruskalLoop]
    split
    · rcases hcc : createCorridor g (rooms.getD e.1.1 dummyRoom) (rooms.getD e.1.2 dummyRoom) rng
        with ⟨g2, rng2⟩
      have hg2 : rowLens g2 = rowLens g := by
        have := rowLens_createCorridor g (rooms.getD e.1.1 dummyRoom) (rooms.getD e.1.2 dummyRoom) rng
        rw [hcc] at this; exact this
      simp only [hcc]
      split
      · exact hg2
      · rw [ih _ _ g2 rng2]; exact hg2
    · exact ih _ _ g rng

theorem noDoor_kruskalLoop (rooms : List Room) (edges : List ((Nat × Nat) × Nat))
    (uf : UnionFind) (corridors : List (Nat × Nat)) (g : Grid) (rng : RNG)
    (h : NoDoor g) : NoDoor (kruskalLoop rooms edges uf corridors g rng).2.2.1 := by
  induction edges generalizing uf corridors g rng with
  | nil => exact h
  | cons e rest ih =>
    simp only [kruskalLoop]
    split
    · rcases hcc : createCorridor g (rooms.getD e.1.1 dummyRoom) (rooms.getD e.1.2 dummyRoom) rng
        with ⟨g2, rng2⟩
      have hg2 : NoDoor g2 := by
        have := noDoor_createCorridor g (rooms.getD e.1.1 dummyRoom) (rooms.getD e.1.2 dummyRoom) rng h
        rw [hcc] at this; exact this
      simp only [hcc]
      split
      · exact hg2
      · exact ih _ _ g2 rng2 hg2
    · exact ih _ _ g rng h

theorem rowLens_extraLoop (rooms : List Room) (corridors : List (Nat × Nat))
    (extra : Nat) (edges : List ((Nat × Nat) × Nat)) (added : Nat) (g : Grid) (rng : RNG) :
    rowLens (extraLoop rooms corridors extra edges added g rng).1 = rowLens g := by
  induction edges generalizing added g rng with
  | nil => rfl
  | cons e rest ih =>
    simp only [extraLoop]
    split
    · exact ih _ g rng
    · rcases hcc : createCorridor g (rooms.getD e.1.1 dummyRoom) (rooms.getD e.1.2 dummyRoom) rng
        with ⟨g2, rng2⟩
      have hg2 : rowLens g2 = rowLens g := by
        have := rowLens_createCorridor g (rooms.getD e.1.1 dummyRoom) (rooms.getD e.1.2 dummyRoom) rng
        rw [hcc] at this; exact this
      simp only [hcc]
      split
      · exact hg2
      · rw [ih _ g2 rng2]; exact hg2

theorem noDoor_extraLoop (rooms : List Room) (corridors : List (Nat × Nat))
    (extra : Nat) (edges : List ((Nat × Nat) × Nat)) (added : Nat) (g : Grid) (rng : RNG)
    (h : NoDoor g) : NoDoor (extraLoop rooms corridors extra edges added g rng).1 := by
  induction edges generalizing added g rng with
  | nil => exact h
  | cons e rest ih =>
    simp only [extraLoop]
    split
    · exact ih _ g rng h
    · rcases hcc : createCorridor g (rooms.getD e.1.1 dummyRoom) (rooms.getD e.1.2 dummyRoom) rng
        with ⟨g2, rng2⟩
      have hg2 : NoDoor g2 := by
        have := noDoor_createCorridor g (rooms.getD e.1.1 dummyRoom) (rooms.getD e.1.2 dummyRoom) rng h
        rw [hcc] at this; exact this
      simp only [hcc]
      split
      · exact hg2
      · exact ih _ g2 rng2 hg2

end RoomPlacement

theorem iterateN_pres {σ : Type} (f : σ → Option σ) (P : σ → Prop)
    (hf : ∀ s s', f s = some s' → P s → P s') :
    ∀ n s s', iterateN f n s = some s' → P s → P s' := by
  intro n
  induction n with
  | zero =>
    intro s s' h hs
    simp only [iterateN, Option.some.injEq] at h
    exact h ▸ hs
  | succ n ih =>
    intro s s' h hs
    simp only [iterateN, Option.bind_eq_some] at h
    obtain ⟨s1, hs1, hrest⟩ := h
    exact ih s1 s' hrest (hf s s1 hs1 hs)


namespace RoomPlacement

/-- The invariant a placement-loop iteration preserves: grid shape,
absence of doors, and pairwise non-intersection of the accepted rooms. -/
theorem placeStep_inv {w h mn mx : Nat} {g g' : Grid} {rooms rooms' : List Room}
    {rng rng' : RNG}
    (hstep : placeStep w h mn mx (g, rooms, rng) = some (g', rooms', rng')) :
    rowLens g' = rowLens g ∧ (NoDoor g → NoDoor g') ∧
    (List.Pairwise (fun a b => a.intersects b = false) rooms →
      List.Pairwise (fun a b => a.intersects b = false) rooms') := by
  simp only [placeStep] at hstep
  split at hstep
  · exact Option.noConfusion hstep
  split at hstep
  · exact Option.noConfusion hstep
  split at hstep
  · exact Option.noConfusion hstep
  split at hstep
  · obtain ⟨rfl, rfl, rfl⟩ := hstep
    exact ⟨rfl, fun hd => hd, fun hp => hp⟩
  split at hstep
  · exact Option.noConfusion hstep
  split at hstep
  · obtain ⟨rfl, rfl, rfl⟩ := hstep
    exact ⟨rfl, fun hd => hd, fun hp => hp⟩
  split at hstep
  · exact Option.noConfusion hstep
  split at hstep
  · exact Option.noConfusion hstep
  split at hstep
  · exact Option.noConfusion hstep
  split at hstep
  · exact Option.noConfusion hstep
  split at hstep
  case isTrue hall =>
    obtain ⟨rfl, rfl, rfl⟩ := hstep
    refine ⟨?_, ?_, ?_⟩
    · exact rowLens_foldl _ (fun g a =>
        rowLens_foldl _ (fun g b => rowLens_gridSet g b a _) _ g) _ g
    · intro hd
      exact noDoor_foldl _ (fun g a hg =>
        noDoor_foldl _ (fun g b hg' => noDoor_gridSet (by simp) hg') _ g hg) _ g hd
    · intro hp
      rw [List.pairwise_append]
      refine ⟨hp, List.pairwise_singleton _ _, ?_⟩
      intro a ha b hb
      rw [List.mem_singleton] at hb
      subst hb
      rw [List.all_eq_true] at hall
      have := hall a ha
      rw [Bool.not_eq_true'] at this
      rw [intersects_comm]
      exact this
  case isFalse =>
    obtain ⟨rfl, rfl, rfl⟩ := hstep
    exact ⟨rfl, fun hd => hd, fun hp => hp⟩

/-- `placeRooms` preserves the grid shape and door-freeness, and its
accepted rooms are pairwise non-intersecting. -/
theorem placeRooms_inv {w h mn mx : Nat} {g0 g1 : Grid} {rooms1 : List Room}
    {rng rng' : RNG}
    (hpr : placeRooms w h mn mx g0 rng = some (g1, rooms1, rng')) :
    rowLens g1 = rowLens g0 ∧ (NoDoor g0 → NoDoor g1) ∧
    List.Pairwise (fun a b => a.intersects b = false) rooms1 := by
  unfold placeRooms at hpr
  split at hpr
  · exact absurd hpr (by simp)
  · exact iterateN_pres (placeStep w h mn mx)
      (fun st => rowLens st.1 = rowLens g0 ∧ (NoDoor g0 → NoDoor st.1) ∧
        List.Pairwise (fun a b => a.intersects b = false) st.2.1)
      (fun s s' hs hP => by
        obtain ⟨gs, rs, ns⟩ := s
        obtain ⟨gs', rs', ns'⟩ := s'
        obtain ⟨h1, h2, h3⟩ := placeStep_inv hs
        exact ⟨h1.trans hP.1, fun hd => h2 (hP.2.1 hd), h3 hP.2.2⟩)
      _ _ _ hpr ⟨rfl, fun hd => hd, List.Pairwise.nil⟩

end RoomPlacement
theorem rp_build_ok {cfg : DungeonBuildConfig} {rng : RNG} {g : Grid}
    (hb : RoomPlacement.build cfg rng = some (Except.ok g)) :
    rowLens g = List.replicate cfg.dungeon_size.height cfg.dungeon_size.width ∧
    (cfg.should_place_doors = false → NoDoor g) := by
  simp only [RoomPlacement.build] at hb
  split at hb
  · exact Option.noConfusion hb
  rename_i map1 rooms1 rng1 hpr
  obtain ⟨hlen1, hnd1, -⟩ := RoomPlacement.placeRooms_inv hpr
  split at hb
  · exact absurd hb (by simp)
  split at hb
  · exact Option.noConfusion hb
  rename_i extra rng3 hgen
  simp only [Option.some.injEq, Except.ok.injEq] at hb
  have hkruskal := RoomPlacement.rowLens_kruskalLoop rooms1
    (RoomPlacement.sortEdges (RoomPlacement.mkEdges rooms1))
    (RoomPlacement.UnionFind.new rooms1.length) [] map1 rng1
  have hextra := RoomPlacement.rowLens_extraLoop rooms1
    (RoomPlacement.kruskalLoop rooms1 (RoomPlacement.sortEdges (RoomPlacement.mkEdges rooms1))
      (RoomPlacement.UnionFind.new rooms1.length) [] map1 rng1).2.1 extra
    (RoomPlacement.sortEdges (RoomPlacement.mkEdges rooms1)) 0
    (RoomPlacement.kruskalLoop rooms1 (RoomPlacement.sortEdges (RoomPlacement.mkEdges rooms1))
      (RoomPlacement.UnionFind.new rooms1.length) [] map1 rng1).2.2.1 rng3
  have hndk := fun hnd =>
    RoomPlacement.noDoor_extraLoop rooms1
      (RoomPlacement.kruskalLoop rooms1 (RoomPlacement.sortEdges (RoomPlacement.mkEdges rooms1))
        (RoomPlacement.UnionFind.new rooms1.length) [] map1 rng1).2.1 extra
      (RoomPlacement.sortEdges (RoomPlacement.mkEdges rooms1)) 0
      (RoomPlacement.kruskalLoop rooms1 (RoomPlacement.sortEdges (RoomPlacement.mkEdges rooms1))
        (RoomPlacement.UnionFind.new rooms1.length) [] map1 rng1).2.2.1 rng3
      (RoomPlacement.noDoor_kruskalLoop rooms1
        (RoomPlacement.sortEdges (RoomPlacement.mkEdges rooms1))
        (RoomPlacement.UnionFind.new rooms1.length) [] map1 rng1 hnd)
  rw [rowLens_mkGrid] at hlen1
  constructor
  · subst hb
    cases hf : cfg.should_place_doors with
    | false =>
      simp only [Bool.false_eq_true, if_false]
      rw [hextra, hkruskal, hlen1]
    | true =>
      simp only [if_true]
      rw [rowLens_placeDoors, hextra, hkruskal, hlen1]
  · intro hf
    subst hb
    rw [hf]
    simp only [Bool.false_eq_true, if_false]
    exact hndk (hnd1 (noDoor_mkGrid _ _))

/-! ## Preservation lemmas for the BSP pipeline -/

namespace BinaryPartition

theorem rowLens_applyCorridors (g : Grid) (x1 y1 x2 y2 : Nat) (rng : RNG) :
    rowLens (applyCorridors g x1 y1 x2 y2 rng).1 = rowLens g := by
  rcases hcr : rng.nextBool with ⟨coin, rng2⟩
  simp only [applyCorridors, hcr]
  split <;> simp [rowLens_setRowFloorIfWall, rowLens_setColFloorIfWall]

theorem noDoor_applyCorridors (g : Grid) (x1 y1 x2 y2 : Nat) (rng : RNG)
    (h : NoDoor g) : NoDoor (applyCorridors g x1 y1 x2 y2 rng).1 := by
  rcases hcr : rng.nextBool with ⟨coin, rng2⟩
  simp only [applyCorridors, hcr]
  split
  · exact noDoor_setColFloorIfWall _ _ _ (noDoor_setRowFloorIfWall _ _ _ h)
  · exact noDoor_setRowFloorIfWall _ _ _ (noDoor_setColFloorIfWall _ _ _ h)

theorem rowLens_connectRooms (t : RoomsPartition) (g : Grid) (rng : RNG) :
    rowLens (connectRooms t g rng).1 = rowLens g := by
  induction t generalizing g rng with
  | leaf rect room => rfl
  | node rect room l r ihl ihr =>
    simp only [connectRooms]
    rcases hl : connectRooms l g rng with ⟨g1, rng1⟩
    rcases hr : connectRooms r g1 rng1 with ⟨g2, rng2⟩
    have h1 : rowLens g1 = rowLens g := by have := ihl g rng; rw [hl] at this; exact this
    have h2 : rowLens g2 = rowLens g1 := by have := ihr g1 rng1; rw [hr] at this; exact this
    split
    · rw [rowLens_applyCorridors, h2, h1]
    · simp [h2, h1]

theorem noDoor_connectRooms (t : RoomsPartition) (g : Grid) (rng : RNG)
    (h : NoDoor g) : NoDoor (connectRooms t g rng).1 := by
  induction t generalizing g rng with
  | leaf rect room => exact h
  | node rect room l r ihl ihr =>
    simp only [connectRooms]
    rcases hl : connectRooms l g rng with ⟨g1, rng1⟩
    rcases hr : connectRooms r g1 rng1 with ⟨g2, rng2⟩
    have h1 : NoDoor g1 := by have := ihl g rng h; rw [hl] at this; exact this
    have h2 : NoDoor g2 := by have := ihr g1 rng1 h1; rw [hr] at this; exact this
    split
    · exact noDoor_applyCorridors _ _ _ _ _ _ h2
    · exact h2

theorem rowLens_carveRooms (g : Grid) (rooms : List Room) :
    rowLens (carveRooms g rooms) = rowLens g :=
  rowLens_foldl _ (fun g _room =>
    rowLens_foldl _ (fun g y =>
      rowLens_foldl _ (fun g x => rowLens_gridSet g y x _) _ g) _ g) _ g

theorem noDoor_carveRooms (g : Grid) (rooms : List Room) (h : NoDoor g) :
    NoDoor (carveRooms g rooms) :=
  noDoor_foldl _ (fun g room hg =>
    noDoor_foldl _ (fun g y hg' =>
      noDoor_foldl _ (fun g x hg'' => noDoor_gridSet (by simp) hg'') _ g hg') _ g hg) _ g h

end BinaryPartition

theorem bp_build_ok {cfg : DungeonBuildConfig} {rng : RNG} {g : Grid}
    (hb : BinaryPartition.build cfg rng = some (Except.ok g)) :
    rowLens g = List.replicate cfg.dungeon_size.height cfg.dungeon_size.width ∧
    (cfg.should_place_doors = false → NoDoor g) := by
  simp only [BinaryPartition.build] at hb
  split at hb
  · exact Option.noConfusion hb
  rename_i tree rng1 hpt
  split at hb
  · exact Option.noConfusion hb
  rename_i tree2 rooms1 rng2 hcr
  split at hb
  · exact absurd hb (by simp)
  simp only [Option.some.injEq, Except.ok.injEq] at hb
  have hconn := BinaryPartition.rowLens_connectRooms tree2
    (BinaryPartition.carveRooms (mkGrid cfg.dungeon_size.width cfg.dungeon_size.height) rooms1) rng2
  have hcarve := BinaryPartition.rowLens_carveRooms
    (mkGrid cfg.dungeon_size.width cfg.dungeon_size.height) rooms1
  have hndc := BinaryPartition.noDoor_connectRooms tree2
    (BinaryPartition.carveRooms (mkGrid cfg.dungeon_size.width cfg.dungeon_size.height) rooms1) rng2
    (BinaryPartition.noDoor_carveRooms _ rooms1 (noDoor_mkGrid _ _))
  constructor
  · subst hb
    cases hf : cfg.should_place_doors with
    | false =>
      simp only [Bool.false_eq_true, if_false]
      rw [hconn, hcarve, rowLens_mkGrid]
    | true =>
      simp only [if_true]
      rw [rowLens_placeDoors, hconn, hcarve, rowLens_mkGrid]
  · intro hf
    subst hb
    rw [hf]
    simp only [Bool.false_eq_true, if_false]
    exact hndc
theorem gridGet_gridSet_ne (g : Grid) {y x y' x' : Nat} (t : TileType)
    (hne : ¬(y' = y ∧ x' = x)) :
    gridGet (gridSet g y x t) y' x' = gridGet g y' x' := by
  unfold gridGet gridSet
  by_cases hy : y' = y
  · subst hy
    have hx : x ≠ x' := fun hxx => hne ⟨rfl, hxx.symm⟩
    by_cases hlen : y' < g.length
    · rw [List.getD_eq_getElem?_getD (g.set y' _),
        List.getElem?_set_self (by simpa using hlen)]
      simp only [Option.getD_some]
      rw [List.getD_eq_getElem?_getD ((g.getD y' []).set x t),
        List.getElem?_set_ne hx, ← List.getD_eq_getElem?_getD]
    · rw [List.set_eq_of_length_le (Nat.le_of_not_lt hlen)]
  · rw [List.getD_eq_getElem?_getD (g.set y _),
      List.getElem?_set_ne (fun hyy => hy hyy.symm), ← List.getD_eq_getElem?_getD]

theorem gridGet_gridSet_self (g : Grid) (y x : Nat) (t : TileType) :
    gridGet (gridSet g y x t) y x = t ∨
    gridGet (gridSet g y x t) y x = gridGet g y x := by
  unfold gridGet gridSet
  by_cases hlen : y < g.length
  · rw [List.getD_eq_getElem?_getD (g.set y _),
      List.getElem?_set_self (by simpa using hlen)]
    simp only [Option.getD_some]
    by_cases hx : x < (g.getD y []).length
    · left
      rw [List.getD_eq_getElem?_getD, List.getElem?_set_self hx]
      rfl
    · right
      rw [List.set_eq_of_length_le (Nat.le_of_not_lt hx)]
  · right
    rw [List.set_eq_of_length_le (Nat.le_of_not_lt hlen)]
theorem foldl_guardedWrite_frame (coords : Nat → Nat × Nat) (l : List Nat) :
    ∀ (g : Grid) (y₀ x₀ : Nat), gridGet g y₀ x₀ ≠ TileType.Wall →
    gridGet (l.foldl (fun g i => if gridGet g (coords i).1 (coords i).2 = TileType.Wall
      then gridSet g (coords i).1 (coords i).2 TileType.Floor else g) g) y₀ x₀ =
      gridGet g y₀ x₀ := by
  induction l with
  | nil => intro g y₀ x₀ _; rfl
  | cons a l ih =>
    intro g y₀ x₀ h
    rw [List.foldl_cons]
    have hg1 : gridGet (if gridGet g (coords a).1 (coords a).2 = TileType.Wall
        then gridSet g (coords a).1 (coords a).2 TileType.Floor else g) y₀ x₀ =
        gridGet g y₀ x₀ := by
      split
      case isTrue hw =>
        apply gridGet_gridSet_ne
        rintro ⟨rfl, rfl⟩
        exact h hw
      case isFalse => rfl
    rw [ih _ y₀ x₀ (by rw [hg1]; exact h), hg1]

theorem foldl_write_floor_stable (coords : Nat → Nat × Nat) (l : List Nat) :
    ∀ (g : Grid) (y₀ x₀ : Nat), gridGet g y₀ x₀ = TileType.Floor →
    gridGet (l.foldl (fun g i =>
      gridSet g (coords i).1 (coords i).2 TileType.Floor) g) y₀ x₀ = TileType.Floor := by
  induction l with
  | nil => intro g y₀ x₀ h; exact h
  | cons a l ih =>
    intro g y₀ x₀ h
    rw [List.foldl_cons]
    apply ih
    by_cases hc : (coords a).1 = y₀ ∧ (coords a).2 = x₀
    · obtain ⟨rfl, rfl⟩ := hc
      rcases gridGet_gridSet_self g (coords a).1 (coords a).2 TileType.Floor with hs | hs
      · exact hs
      · rw [hs]; exact h
    · rw [gridGet_gridSet_ne _ _ (fun hcc => hc ⟨hcc.1.symm, hcc.2.symm⟩)]
      exact h

namespace BinaryPartition

theorem applyCorridors_frame (g : Grid) (x1 y1 x2 y2 : Nat) (rng : RNG)
    (y₀ x₀ : Nat) (h : gridGet g y₀ x₀ ≠ TileType.Wall) :
    gridGet (applyCorridors g x1 y1 x2 y2 rng).1 y₀ x₀ = gridGet g y₀ x₀ := by
  rcases hcr : rng.nextBool with ⟨coin, rng2⟩
  simp only [applyCorridors, hcr]
  split
  · have h1 := foldl_guardedWrite_frame (fun i => (y1, i))
      (List.range' (min x1 x2) (max x1 x2 + 1 - min x1 x2)) g y₀ x₀ h
    have h2 := foldl_guardedWrite_frame (fun i => (i, x2))
      (List.range' (min y1 y2) (max y1 y2 + 1 - min y1 y2))
      (setRowFloorIfWall g y1 x1 x2) y₀ x₀ (by
        show gridGet (setRowFloorIfWall g y1 x1 x2) y₀ x₀ ≠ TileType.Wall
        have : gridGet (setRowFloorIfWall g y1 x1 x2) y₀ x₀ = gridGet g y₀ x₀ := h1
        rw [this]; exact h)
    show gridGet (setColFloorIfWall (setRowFloorIfWall g y1 x1 x2) x2 y1 y2) y₀ x₀ = _
    calc gridGet (setColFloorIfWall (setRowFloorIfWall g y1 x1 x2) x2 y1 y2) y₀ x₀
        = gridGet (setRowFloorIfWall g y1 x1 x2) y₀ x₀ := h2
      _ = gridGet g y₀ x₀ := h1
  · have h1 := foldl_guardedWrite_frame (fun i => (i, x1))
      (List.range' (min y1 y2) (max y1 y2 + 1 - min y1 y2)) g y₀ x₀ h
    have h2 := foldl_guardedWrite_frame (fun i => (y2, i))
      (List.range' (min x1 x2) (max x1 x2 + 1 - min x1 x2))
      (setColFloorIfWall g x1 y1 y2) y₀ x₀ (by
        show gridGet (setColFloorIfWall g x1 y1 y2) y₀ x₀ ≠ TileType.Wall
        have : gridGet (setColFloorIfWall g x1 y1 y2) y₀ x₀ = gridGet g y₀ x₀ := h1
        rw [this]; exact h)
    show gridGet (setRowFloorIfWall (setColFloorIfWall g x1 y1 y2) y2 x1 x2) y₀ x₀ = _
    calc gridGet (setRowFloorIfWall (setColFloorIfWall g x1 y1 y2) y2 x1 x2) y₀ x₀
        = gridGet (setColFloorIfWall g x1 y1 y2) y₀ x₀ := h2
      _ = gridGet g y₀ x₀ := h1

end BinaryPartition

namespace RoomPlacement

theorem createCorridor_floor_stable (g : Grid) (r1 r2 : Room) (rng : RNG)
    (y₀ x₀ : Nat) (h : gridGet g y₀ x₀ = TileType.Floor) :
    gridGet (createCorridor g r1 r2 rng).1 y₀ x₀ = TileType.Floor := by
  rcases hcr : rng.nextBool with ⟨coin, rng2⟩
  simp only [createCorridor, hcr]
  split
  · have h1 := foldl_write_floor_stable (fun i => (r1.center_y, i))
      (List.range' (min r1.center_x r2.center_x)
        (max r1.center_x r2.center_x + 1 - min r1.center_x r2.center_x)) g y₀ x₀ h
    exact foldl_write_floor_stable (fun i => (i, r2.center_x))
      (List.range' (min r1.center_y r2.center_y)
        (max r1.center_y r2.center_y + 1 - min r1.center_y r2.center_y))
      (setRowFloor g r1.center_y r1.center_x r2.center_x) y₀ x₀ h1
  · have h1 := foldl_write_floor_stable (fun i => (i, r1.center_x))
      (List.range' (min r1.center_y r2.center_y)
        (max r1.center_y r2.center_y + 1 - min r1.center_y r2.center_y)) g y₀ x₀ h
    exact foldl_write_floor_stable (fun i => (r2.center_y, i))
      (List.range' (min r1.center_x r2.center_x)
        (max r1.center_x r2.center_x + 1 - min r1.center_x r2.center_x))
      (setColFloor g r1.center_x r1.center_y r2.center_y) y₀ x₀ h1

end RoomPlacement

/-! ## Sample inputs used by the witnesses -/

/-- A concrete random stream: all raw draws are `0`. -/
def rngZeros : RNG := ⟨fun _ => 0, 0⟩

/-- A sample configuration for the BSP strategy (valid; doors disabled). -/
def bspSampleCfg : DungeonBuildConfig := ⟨⟨8, 8⟩, ⟨1, 3⟩, false⟩

/-- A sample configuration for the room-placement strategy (valid; doors
disabled). -/
def rpSampleCfg : DungeonBuildConfig := ⟨⟨8, 8⟩, ⟨2, 2⟩, false⟩

/-- Extract the grid of a successful build (junk on failure). -/
def getOk (r : Option (Except DungeonBuildError Grid)) : Grid :=
  match r with
  | some (.ok g) => g
  | _ => []

/-! ## The claims -/

/-- C1: for every configuration, a successful build — with either strategy —
returns a grid with exactly `height` rows, each of exactly `width` columns,
where `width` and `height` come from the configuration's `dungeon_size`. -/
theorem build_grid_dims {cfg : DungeonBuildConfig} {rng : RNG} {g : Grid}
    (hb : BinaryPartition.build cfg rng = some (Except.ok g) ∨
          RoomPlacement.build cfg rng = some (Except.ok g)) :
    g.length = cfg.dungeon_size.height ∧
    ∀ row ∈ g, row.length = cfg.dungeon_size.width := by
  have hrl : rowLens g = List.replicate cfg.dungeon_size.height cfg.dungeon_size.width := by
    rcases hb with hb | hb
    · exact (bp_build_ok hb).1
    · exact (rp_build_ok hb).1
  constructor
  · have := congrArg List.length hrl
    simpa [rowLens] using this
  · intro row hrow
    have : row.length ∈ rowLens g := List.mem_map.mpr ⟨row, hrow, rfl⟩
    rw [hrl] at this
    exact List.eq_of_mem_replicate this

/-- Witness for C1: both strategies succeed on the sample configurations
with the all-zeros stream, and the returned grids have 8 rows. -/
theorem build_grid_dims_witness :
    (getOk (BinaryPartition.build bspSampleCfg rngZeros)).length = 8 ∧
    (getOk (RoomPlacement.build rpSampleCfg rngZeros)).length = 8 := by
  have h1 : BinaryPartition.build bspSampleCfg rngZeros =
      some (Except.ok (getOk (BinaryPartition.build bspSampleCfg rngZeros))) := by rfl
  have h2 : RoomPlacement.build rpSampleCfg rngZeros =
      some (Except.ok (getOk (RoomPlacement.build rpSampleCfg rngZeros))) := by rfl
  exact ⟨(build_grid_dims (Or.inl h1)).1, (build_grid_dims (Or.inr h2)).1⟩

/-- C2: the configuration builder checks, in order: strategy presence
(`NoBuildAlgorithmProvided`, named `NoStrategySelected` in the spec), then
zero width/height (`InvalidSize`), then zero or inverted room sizes
(`InvalidRoomSize`), then room-vs-dungeon size (`RoomTooLargeForDungeon`);
the first failing check's error is returned and the strategy runs only when
every check passes.  `specOrderedBuild` is that sequence written from the
spec's words; the builder equals it for every strategy and configuration. -/
theorem builder_validation_order (algo : Option BuildStrategy)
    (cfg : DungeonBuildConfig) (rng : RNG) :
    configBuilderBuild algo cfg rng = specOrderedBuild algo cfg rng := by
  cases algo with
  | none => rfl
  | some f =>
    simp only [configBuilderBuild, specOrderedBuild, DungeonSize.validate,
      RoomSize.validate, DungeonSize.validate_room_size]
    split_ifs <;> rfl

/-- C5 (the code at the claim's own example input): the configuration
`width = height = 1`, `min_room_size = max_room_size = 1` passes every
builder check, the room-placement strategy is invoked, and its first
iteration evaluates `width - 2`, which underflows `usize`: the modelled
build is a panic (`none`), not `Err(NoRoomsCreated)`. -/
theorem rp_small_config_panics :
    configBuilderBuild (some RoomPlacement.build)
      ⟨⟨1, 1⟩, ⟨1, 1⟩, false⟩ rngZeros = none := by rfl

/-- C6: every cell of a returned grid is `Wall`, `Floor` or `Door`, and when
`should_place_doors` is `false` the returned grid has zero `Door` cells,
for both strategies. -/
theorem build_cells_and_doors {cfg : DungeonBuildConfig} {rng : RNG} {g : Grid}
    (hb : BinaryPartition.build cfg rng = some (Except.ok g) ∨
          RoomPlacement.build cfg rng = some (Except.ok g)) :
    (∀ row ∈ g, ∀ t ∈ row,
      t = TileType.Wall ∨ t = TileType.Floor ∨ t = TileType.Door) ∧
    (cfg.should_place_doors = false → doorCount g = 0) := by
  constructor
  · intro row _ t _
    cases t
    · exact Or.inr (Or.inr rfl)
    · exact Or.inl rfl
    · exact Or.inr (Or.inl rfl)
  · intro hf
    have hnd : NoDoor g := by
      rcases hb with hb | hb
      · exact (bp_build_ok hb).2 hf
      · exact (rp_build_ok hb).2 hf
    unfold doorCount
    apply List.sum_eq_zero
    intro n hn
    rw [List.mem_map] at hn
    obtain ⟨row, hrow, rfl⟩ := hn
    rw [List.countP_eq_zero]
    intro t ht
    have := hnd row hrow t ht
    simpa using this

/-- Witness for C6: on the sample runs (doors disabled), the door count of
both strategies' grids is zero. -/
theorem build_cells_and_doors_witness :
    doorCount (getOk (BinaryPartition.build bspSampleCfg rngZeros)) = 0 ∧
    doorCount (getOk (RoomPlacement.build rpSampleCfg rngZeros)) = 0 := by
  have h1 : BinaryPartition.build bspSampleCfg rngZeros =
      some (Except.ok (getOk (BinaryPartition.build bspSampleCfg rngZeros))) := by rfl
  have h2 : RoomPlacement.build rpSampleCfg rngZeros =
      some (Except.ok (getOk (RoomPlacement.build rpSampleCfg rngZeros))) := by rfl
  exact ⟨(build_cells_and_doors (Or.inl h1)).2 rfl,
         (build_cells_and_doors (Or.inr h2)).2 rfl⟩

/-- The accepted-room list of a placement run (empty on panic). -/
def roomsOf (r : Option (Grid × List RoomPlacement.Room × RNG)) :
    List RoomPlacement.Room :=
  match r with
  | none => []
  | some (_, rooms, _) => rooms

/-- C8: the rooms accepted by the room-placement loop are pairwise
non-overlapping under `Room::intersects` (a candidate intersecting any
previously accepted room is rejected before carving). -/
theorem accepted_rooms_pairwise_disjoint (w h mn mx : Nat) (g : Grid) (rng : RNG) :
    List.Pairwise (fun a b => a.intersects b = false)
      (roomsOf (RoomPlacement.placeRooms w h mn mx g rng)) := by
  cases hpr : RoomPlacement.placeRooms w h mn mx g rng with
  | none => exact List.Pairwise.nil
  | some st =>
    obtain ⟨g1, rooms1, rng1⟩ := st
    exact (RoomPlacement.placeRooms_inv hpr).2.2

/-- C7 counterexample: `create_corridor` (room-placement strategy) carves
unconditionally, so a `Door` cell lying on the corridor path is overwritten
to `Floor` — its value before the call is `Door` and after the call `Floor`,
refuting "existing Floor/Door cells are left untouched" for this carver. -/
theorem createCorridor_overwrites_door :
    gridGet [[TileType.Floor, TileType.Door, TileType.Floor]] 0 1 = TileType.Door ∧
    gridGet (RoomPlacement.createCorridor
      [[TileType.Floor, TileType.Door, TileType.Floor]]
      (RoomPlacement.Room.new 0 0 1 1) (RoomPlacement.Room.new 2 0 1 1) rngZeros).1 0 1 =
      TileType.Floor := by decide

/-- C7 amended: the BSP carver `apply_corridors` converts only `Wall` cells
(any non-`Wall` cell — `Floor` or `Door` — is unchanged), while the
room-placement carver `create_corridor` writes `Floor` unconditionally, so
only `Floor` cells are guaranteed to keep their value (a `Door` on the path
is overwritten, see the counterexample). -/
theorem corridor_frame :
    (∀ (g : Grid) (x1 y1 x2 y2 : Nat) (rng : RNG) (y x : Nat),
      gridGet g y x ≠ TileType.Wall →
      gridGet (BinaryPartition.applyCorridors g x1 y1 x2 y2 rng).1 y x = gridGet g y x) ∧
    (∀ (g : Grid) (r1 r2 : RoomPlacement.Room) (rng : RNG) (y x : Nat),
      gridGet g y x = TileType.Floor →
      gridGet (RoomPlacement.createCorridor g r1 r2 rng).1 y x = TileType.Floor) :=
  ⟨fun g x1 y1 x2 y2 rng y x h =>
      BinaryPartition.applyCorridors_frame g x1 y1 x2 y2 rng y x h,
   fun g r1 r2 rng y x h =>
      RoomPlacement.createCorridor_floor_stable g r1 r2 rng y x h⟩

/-- Witness for C7 (amended): a `Door` cell off the corridor path survives
`apply_corridors`, and a `Floor` cell keeps its value under
`create_corridor`. -/
theorem corridor_frame_witness :
    gridGet (BinaryPartition.applyCorridors
      [[TileType.Door, TileType.Wall, TileType.Floor]] 0 0 2 0 rngZeros).1 0 0 =
      TileType.Door ∧
    gridGet (RoomPlacement.createCorridor
      [[TileType.Floor, TileType.Wall, TileType.Floor]]
      (RoomPlacement.Room.new 0 0 1 1) (RoomPlacement.Room.new 2 0 1 1) rngZeros).1 0 0 =
      TileType.Floor := by
  constructor
  · have h := corridor_frame.1 [[TileType.Door, TileType.Wall, TileType.Floor]]
      0 0 2 0 rngZeros 0 0 (by decide)
    rw [h]
    decide
  · exact corridor_frame.2 [[TileType.Floor, TileType.Wall, TileType.Floor]]
      (RoomPlacement.Room.new 0 0 1 1) (RoomPlacement.Room.new 2 0 1 1) rngZeros 0 0 (by decide)

/-- C4 counterexample: for a square node (7×7) the split orientation is
vertical (`false`) under EVERY random source — `width >= height` already
holds, so the `rng.gen_bool(0.5)` branch is dead code — refuting "when
width equals height the orientation is chosen uniformly at random (both
outcomes are possible)". -/
theorem splitDir_square_never_horizontal :
    ¬ ∃ rng : RNG, (BinaryPartition.splitDir 7 7 rng).1 = true := by
  rintro ⟨rng, h⟩
  simp [BinaryPartition.splitDir] at h

/-- C4 amended: a horizontal split is forced exactly when `width < height`;
whenever `width ≥ height` — including square nodes — the split is vertical,
and the orientation choice never consumes a random draw (the random branch
is unreachable). -/
theorem splitDir_spec (w h : Nat) (rng : RNG) :
    BinaryPartition.splitDir w h rng = (decide (w < h), rng) := by
  unfold BinaryPartition.splitDir
  by_cases hwh : w ≥ h
  · rw [if_pos hwh]
    have hnlt : ¬(w < h) := by omega
    simp [hnlt]
  · have hlt : w < h := by omega
    rw [if_neg hwh, if_pos (Nat.le_of_lt hlt)]
    simp [hlt]

/-- C3 counterexample: drawn count 0 and a remaining non-MST edge (0,2) —
the extra loop still carves it (the carve precedes the `added >= extra`
check), refuting "when the drawn count is 0, no extra corridor is carved". -/
theorem extraLoop_zero_still_carves :
    (RoomPlacement.extraLoop
      [RoomPlacement.Room.new 1 1 2 2, RoomPlacement.Room.new 5 1 2 2,
        RoomPlacement.Room.new 1 5 2 2]
      [(0, 1)] 0 [((0, 1), 16), ((0, 2), 16), ((1, 2), 32)] 0 (mkGrid 8 8) rngZeros).2.2
      = [(0, 2)] := by decide

/-- C3 amended: the extra-corridor count is drawn uniformly from `{0, 1}`,
but the loop carves an edge before checking the count, so for any drawn
count ≤ 1 it carves exactly the FIRST edge not already carved as an MST
corridor, in the given (ascending-weight) edge order — one extra corridor
whenever a non-MST edge remains, even when the drawn count is 0. -/
theorem extraLoop_take_one (rooms : List RoomPlacement.Room)
    (corridors : List (Nat × Nat)) (extra : Nat)
    (edges : List ((Nat × Nat) × Nat)) (g : Grid) (rng : RNG) (hex : extra ≤ 1) :
    (RoomPlacement.extraLoop rooms corridors extra edges 0 g rng).2.2 =
    ((edges.filter (fun e =>
        !(corridors.contains (e.1.1, e.1.2) || corridors.contains (e.1.2, e.1.1)))).map
      (fun e => e.1)).take 1 := by
  induction edges generalizing g rng with
  | nil => rfl
  | cons e rest ih =>
    simp only [RoomPlacement.extraLoop]
    split
    case isTrue hmem =>
      rw [ih g rng, List.filter_cons, if_neg (by rw [Bool.not_eq_true', hmem]; simp)]
    case isFalse hmem =>
      rcases hcc : RoomPlacement.createCorridor g
        (rooms.getD e.1.1 RoomPlacement.dummyRoom)
        (rooms.getD e.1.2 RoomPlacement.dummyRoom) rng with ⟨g2, rng2⟩
      simp only [hcc]
      rw [List.filter_cons, if_pos (by simpa using hmem)]
      simp

/-- Witness for C3 (amended): a concrete run with drawn count 0. -/
theorem extraLoop_take_one_witness :
    (0 : Nat) ≤ 1 ∧
    (RoomPlacement.extraLoop [] [(0, 1)] 0 [((0, 1), 4), ((0, 2), 9)] 0 [] rngZeros).2.2 =
    (([((0, 1), 4), ((0, 2), 9)].filter (fun e =>
        !(([(0, 1)] : List (Nat × Nat)).contains (e.1.1, e.1.2) ||
          ([(0, 1)] : List (Nat × Nat)).contains (e.1.2, e.1.1)))).map
      (fun e => e.1)).take 1 :=
  ⟨Nat.zero_le 1,
   extraLoop_take_one [] [(0, 1)] 0 [((0, 1), 4), ((0, 2), 9)] [] rngZeros (by decide)⟩
namespace BinaryPartition

/-- Membership of a cell in a rectangle (half-open on both axes). -/
def Room.containsCell (r : Room) (px py : Nat) : Prop :=
  r.x ≤ px ∧ px < r.x + r.width ∧ r.y ≤ py ∧ py < r.y + r.height

instance (r : Room) (px py : Nat) : Decidable (r.containsCell px py) := by
  unfold Room.containsCell
  infer_instance

end BinaryPartition

/-- C9: a successful BSP split partitions the parent rectangle exactly — the
children cover it and are disjoint (so sibling partitions never overlap) —
and every room created in a leaf lies fully within that leaf's rectangle. -/
theorem bsp_partition_invariants :
    (∀ (rect : BinaryPartition.Room) (minS : Nat) (rng rng' : RNG)
        (l r : BinaryPartition.Room),
      BinaryPartition.splitNode rect minS rng = some (some (l, r), rng') →
      ∀ px py,
        (rect.containsCell px py ↔ (l.containsCell px py ∨ r.containsCell px py)) ∧
        ¬(l.containsCell px py ∧ r.containsCell px py)) ∧
    (∀ (rect : BinaryPartition.Room) (minS maxS : Nat) (rng rng' : RNG)
        (room : BinaryPartition.Room),
      BinaryPartition.createRoomForLeaf rect minS maxS rng = some (some room, rng') →
      ∀ px py, room.containsCell px py → rect.containsCell px py) := by
  constructor
  · intro rect minS rng rng' l r hs px py
    rcases hsd : BinaryPartition.splitDir rect.width rect.height rng with ⟨horiz, rng1⟩
    simp only [BinaryPartition.splitNode, hsd] at hs
    cases horiz with
    | true =>
      split at hs
      · exact Option.noConfusion hs
      rename_i maxSize hcs
      obtain ⟨hms, rfl⟩ := csub_eq_some hcs
      split at hs
      · simp at hs
      rename_i hguard
      split at hs
      · exact Option.noConfusion hs
      rename_i sp rng2 hgen
      obtain ⟨hsp1, hsp2⟩ := genRange_bounds hgen
      simp only [if_true, Option.some.injEq, Prod.mk.injEq] at hs
      obtain ⟨⟨rfl, rfl⟩, rfl⟩ := hs
      unfold BinaryPartition.Room.containsCell
      simp only
      constructor
      · constructor
        · intro hc
          omega
        · intro hc
          omega
      · intro hc
        omega
    | false =>
      split at hs
      · exact Option.noConfusion hs
      rename_i maxSize hcs
      obtain ⟨hms, rfl⟩ := csub_eq_some hcs
      split at hs
      · simp at hs
      rename_i hguard
      split at hs
      · exact Option.noConfusion hs
      rename_i sp rng2 hgen
      obtain ⟨hsp1, hsp2⟩ := genRange_bounds hgen
      simp only [Bool.false_eq_true, if_false, Option.some.injEq, Prod.mk.injEq] at hs
      obtain ⟨⟨rfl, rfl⟩, rfl⟩ := hs
      unfold BinaryPartition.Room.containsCell
      simp only
      constructor
      · constructor
        · intro hc
          omega
        · intro hc
          omega
      · intro hc
        omega
  · intro rect minS maxS rng rng' room hc px py
    simp only [BinaryPartition.createRoomForLeaf] at hc
    split at hc
    · exact Option.noConfusion hc
    rename_i wSub hws
    obtain ⟨hws1, rfl⟩ := csub_eq_some hws
    split at hc
    · exact Option.noConfusion hc
    rename_i hSub hhs
    obtain ⟨hhs1, rfl⟩ := csub_eq_some hhs
    split at hc
    · simp at hc
    rename_i hfeas
    split at hc
    · exact Option.noConfusion hc
    rename_i roomW rng1 hgw
    obtain ⟨hgw1, hgw2⟩ := genRangeIncl_bounds hgw
    split at hc
    · exact Option.noConfusion hc
    rename_i roomH rng2 hgh
    obtain ⟨hgh1, hgh2⟩ := genRangeIncl_bounds hgh
    split at hc
    · simp at hc
    rename_i hguard2
    split at hc
    · exact Option.noConfusion hc
    rename_i xHi hxs
    obtain ⟨hxs1, rfl⟩ := csub_eq_some hxs
    split at hc
    · exact Option.noConfusion hc
    rename_i roomX rng3 hgx
    obtain ⟨hgx1, hgx2⟩ := genRangeIncl_bounds hgx
    split at hc
    · exact Option.noConfusion hc
    rename_i yHi hys
    obtain ⟨hys1, rfl⟩ := csub_eq_some hys
    split at hc
    · exact Option.noConfusion hc
    rename_i roomY rng4 hgy
    obtain ⟨hgy1, hgy2⟩ := genRangeIncl_bounds hgy
    simp only [Option.some.injEq, Prod.mk.injEq] at hc
    obtain ⟨rfl, rfl⟩ := hc
    unfold BinaryPartition.Room.containsCell
    simp only
    intro hcc
    have hwmax : roomW ≤ min (rect.width - 1) maxS := hgw2
    have hhmax : roomH ≤ min (rect.height - 1) maxS := hgh2
    have h1 : roomW ≤ rect.width - 1 := le_trans hwmax (Nat.min_le_left _ _)
    have h2 : roomH ≤ rect.height - 1 := le_trans hhmax (Nat.min_le_left _ _)
    omega
namespace BinaryPartition

theorem splitNode_bounds {rect l r : Room} {minS : Nat} {rng rng' : RNG}
    (hs : splitNode rect minS rng = some (some (l, r), rng')) :
    (l.width = rect.width ∧ r.width = rect.width ∧ minS ≤ l.height ∧
      l.height < rect.height - minS ∧ r.height = rect.height - l.height) ∨
    (l.height = rect.height ∧ r.height = rect.height ∧ minS ≤ l.width ∧
      l.width < rect.width - minS ∧ r.width = rect.width - l.width) := by
  rcases hsd : splitDir rect.width rect.height rng with ⟨horiz, rng1⟩
  simp only [splitNode, hsd] at hs
  cases horiz with
  | true =>
    split at hs
    · exact Option.noConfusion hs
    rename_i maxSize hcs
    obtain ⟨hms, rfl⟩ := csub_eq_some hcs
    split at hs
    · simp at hs
    rename_i hguard
    split at hs
    · exact Option.noConfusion hs
    rename_i sp rng2 hgen
    obtain ⟨hsp1, hsp2⟩ := genRange_bounds hgen
    simp only [if_true, Option.some.injEq, Prod.mk.injEq] at hs
    obtain ⟨⟨rfl, rfl⟩, rfl⟩ := hs
    exact Or.inl ⟨rfl, rfl, hsp1, hsp2, rfl⟩
  | false =>
    split at hs
    · exact Option.noConfusion hs
    rename_i maxSize hcs
    obtain ⟨hms, rfl⟩ := csub_eq_some hcs
    split at hs
    · simp at hs
    rename_i hguard
    split at hs
    · exact Option.noConfusion hs
    rename_i sp rng2 hgen
    obtain ⟨hsp1, hsp2⟩ := genRange_bounds hgen
    simp only [Bool.false_eq_true, if_false, Option.some.injEq, Prod.mk.injEq] at hs
    obtain ⟨⟨rfl, rfl⟩, rfl⟩ := hs
    exact Or.inr ⟨rfl, rfl, hsp1, hsp2, rfl⟩

theorem splitNode_decrease {rect l r : Room} {minS : Nat} {rng rng' : RNG}
    (h1 : 1 ≤ minS)
    (hs : splitNode rect minS rng = some (some (l, r), rng')) :
    l.width + l.height < rect.width + rect.height ∧
    r.width + r.height < rect.width + rect.height := by
  rcases splitNode_bounds hs with hb | hb <;> omega

theorem splitNode_pos {rect l r : Room} {minS : Nat} {rng rng' : RNG}
    (h1 : 1 ≤ minS)
    (hs : splitNode rect minS rng = some (some (l, r), rng')) :
    1 ≤ l.width + l.height ∧ 1 ≤ r.width + r.height := by
  rcases splitNode_bounds hs with hb | hb <;> omega

theorem partitionTree_stable (minS maxS : Nat) (h1 : 1 ≤ minS) :
    ∀ (fuel : Nat) (rect : Room) (rng : RNG),
      1 ≤ rect.width + rect.height → rect.width + rect.height ≤ fuel →
      partitionTree fuel rect minS maxS rng =
        partitionTree (rect.width + rect.height) rect minS maxS rng := by
  intro fuel
  induction fuel using Nat.strong_induction_on with
  | _ fuel ih =>
    intro rect rng hpos hle
    obtain ⟨f', rfl⟩ : ∃ f', fuel = f' + 1 := ⟨fuel - 1, by omega⟩
    obtain ⟨s', hs'⟩ : ∃ s', rect.width + rect.height = s' + 1 :=
      ⟨rect.width + rect.height - 1, by omega⟩
    rw [hs']
    simp only [partitionTree]
    rcases hcs : canSplitDraw rect maxS rng with ⟨canSplit, rng1⟩
    cases canSplit with
    | false => rfl
    | true =>
      cases hsn : splitNode rect minS rng1 with
      | none => rfl
      | some res =>
        obtain ⟨resOpt, rng2⟩ := res
        cases resOpt with
        | none => rfl
        | some pair =>
          obtain ⟨lr, rr⟩ := pair
          have hdec := splitNode_decrease h1 hsn
          have hpos2 := splitNode_pos h1 hsn
          have hll := ih f' (by omega) lr rng2 hpos2.1 (by omega)
          have hls := ih s' (by omega) lr rng2 hpos2.1 (by omega)
          dsimp only
          rw [hll, ← hls]
          cases hres : partitionTree s' lr minS maxS rng2 with
          | none => rfl
          | some p =>
            obtain ⟨lt, rng3⟩ := p
            have hrl := ih f' (by omega) rr rng3 hpos2.2 (by omega)
            have hrs := ih s' (by omega) rr rng3 hpos2.2 (by omega)
            dsimp only
            rw [hrl, ← hrs]

end BinaryPartition

/-- C10: the BSP partition recursion is well-founded for `1 ≤ min_room_size`:
a successful split draws its offset in `[min_size, dimension - min_size)`,
the split-axis dimension of both children is strictly smaller than the
parent's (the other axis is inherited), so the total side length strictly
decreases; consequently the recursion terminates — `partition_tree` computes
the same tree under fuel `width + height` as under any larger fuel. -/
theorem bsp_partition_termination :
    (∀ (rect l r : BinaryPartition.Room) (minS : Nat) (rng rng' : RNG),
      1 ≤ minS →
      BinaryPartition.splitNode rect minS rng = some (some (l, r), rng') →
      ((l.width = rect.width ∧ r.width = rect.width ∧ minS ≤ l.height ∧
          l.height < rect.height - minS ∧ r.height = rect.height - l.height) ∨
        (l.height = rect.height ∧ r.height = rect.height ∧ minS ≤ l.width ∧
          l.width < rect.width - minS ∧ r.width = rect.width - l.width)) ∧
      l.width + l.height < rect.width + rect.height ∧
      r.width + r.height < rect.width + rect.height) ∧
    (∀ (minS maxS fuel : Nat) (rect : BinaryPartition.Room) (rng : RNG),
      1 ≤ minS → 1 ≤ rect.width + rect.height →
      rect.width + rect.height ≤ fuel →
      BinaryPartition.partitionTree fuel rect minS maxS rng =
        BinaryPartition.partitionTree (rect.width + rect.height) rect minS maxS rng) :=
  ⟨fun _ _ _ _ _ _ h1 hs =>
    ⟨BinaryPartition.splitNode_bounds hs, BinaryPartition.splitNode_decrease h1 hs⟩,
   fun minS maxS fuel rect rng h1 hpos hle =>
    BinaryPartition.partitionTree_stable minS maxS h1 fuel rect rng hpos hle⟩

/-- Witness for C10: a concrete 10×8 split strictly shrinks the left child,
and a full 6×6 partition run computes the same tree at fuel 30 and at the
exact fuel 12. -/
theorem bsp_partition_termination_witness :
    (1 ≤ 3 ∧
      (⟨0, 0, 3, 8⟩ : BinaryPartition.Room).width +
        (⟨0, 0, 3, 8⟩ : BinaryPartition.Room).height <
      (⟨0, 0, 10, 8⟩ : BinaryPartition.Room).width +
        (⟨0, 0, 10, 8⟩ : BinaryPartition.Room).height) ∧
    BinaryPartition.partitionTree 30 ⟨0, 0, 6, 6⟩ 2 3 rngZeros =
      BinaryPartition.partitionTree 12 ⟨0, 0, 6, 6⟩ 2 3 rngZeros := by
  refine ⟨⟨by decide, ?_⟩, ?_⟩
  · exact (bsp_partition_termination.1 ⟨0, 0, 10, 8⟩ ⟨0, 0, 3, 8⟩ ⟨3, 0, 7, 8⟩ 3
      rngZeros ⟨fun _ => 0, 1⟩ (by decide) (by rfl)).2.1
  · have h30 := bsp_partition_termination.2 2 3 30 ⟨0, 0, 6, 6⟩ rngZeros
      (by decide) (by decide) (by decide)
    have h12 := bsp_partition_termination.2 2 3 12 ⟨0, 0, 6, 6⟩ rngZeros
      (by decide) (by decide) (by decide)
    exact h30.trans h12.symm

/-- Witness for C9: a concrete split of a 10×8 rectangle at offset 3 and a
concrete 2×2 room created in a 5×5 leaf. -/
theorem bsp_partition_invariants_witness :
    (BinaryPartition.Room.containsCell ⟨0, 0, 10, 8⟩ 5 5 ∧
      ¬(BinaryPartition.Room.containsCell ⟨0, 0, 3, 8⟩ 5 5 ∧
        BinaryPartition.Room.containsCell ⟨3, 0, 7, 8⟩ 5 5)) ∧
    BinaryPartition.Room.containsCell ⟨0, 0, 5, 5⟩ 1 1 := by
  have hsplit : BinaryPartition.splitNode ⟨0, 0, 10, 8⟩ 3 rngZeros =
      some (some (⟨0, 0, 3, 8⟩, ⟨3, 0, 7, 8⟩), ⟨fun _ => 0, 1⟩) := by rfl
  have hroom : BinaryPartition.createRoomForLeaf ⟨0, 0, 5, 5⟩ 2 3 rngZeros =
      some (some ⟨0, 0, 2, 2⟩, ⟨fun _ => 0, 4⟩) := by rfl
  have h1 := bsp_partition_invariants.1 ⟨0, 0, 10, 8⟩ 3 rngZeros ⟨fun _ => 0, 1⟩
    ⟨0, 0, 3, 8⟩ ⟨3, 0, 7, 8⟩ hsplit 5 5
  have h2 := bsp_partition_invariants.2 ⟨0, 0, 5, 5⟩ 2 3 rngZeros ⟨fun _ => 0, 4⟩
    ⟨0, 0, 2, 2⟩ hroom 1 1
  exact ⟨⟨h1.1.mpr (Or.inr (by decide)), h1.2⟩, h2 (by decide)⟩
